import Mathlib

/-!
Shallow embedding of `agent_memory_server/working_memory.py` (working-memory
read/reconstruct/write protocol) and proofs about its specification.

Modelling conventions:
* Timestamps (`datetime`) are natural numbers counting microseconds since the
  epoch.  Serialization to the wire (`int(dt.timestamp())`) truncates to whole
  seconds, i.e. maps `t` to `t / 1000000`; `datetime.fromtimestamp(s, UTC)`
  maps back to `1000000 * s`.
* The Redis store is a map from derived keys to stored payloads.  A stored
  payload is either a JSON document that deserializes into the typed wire form
  (`parseable`), bytes that fail `json.loads`/model validation (`garbage`), or
  an empty byte string (`empty`, which Python treats as falsy, i.e. a miss).
* Effects are passed explicitly: the outcome of the Redis read and of the
  long-term search call are inputs, and exceptions are explicit error values.
* Python `str.lower` is modelled as ASCII lowering via `Char.toLower`.
-/

/-- A chat message (`MemoryMessage` in the models module, which is outside
this file's source; fields as used by `working_memory.py` and the data-model
section of the design). `created_at` is in microseconds since the epoch. -/
structure MemoryMessage where
  id : String
  role : String
  content : String
  created_at : Nat
  persisted_at : Option Nat
deriving DecidableEq, Repr

/-- A memory record (`MemoryRecord`): used both for structured memories inside
working memory (where only `id` matters here) and for long-term search
results (`id`, `text`, `created_at`, `persisted_at`). -/
structure MemoryRecord where
  id : String
  text : String
  created_at : Nat
  persisted_at : Option Nat
deriving DecidableEq, Repr

/-- Modelled from the spec: `MemoryStrategyConfig` (models module, not in
src/): a small configuration object whose default is the "discrete"
strategy. -/
structure MemoryStrategyConfig where
  strategy : String := "discrete"
deriving DecidableEq, Repr

/-- The working-memory document, per the data-model section and the fields
constructed by `get_working_memory` / `set_working_memory`.  Timestamps are
microseconds since the epoch. -/
structure WorkingMemory where
  session_id : String
  user_id : Option String
  «namespace» : Option String
  messages : List MemoryMessage
  memories : List MemoryRecord
  context : Option String
  data : List (String × String)
  tokens : Int
  ttl_seconds : Option Int
  long_term_memory_strategy : MemoryStrategyConfig
  created_at : Nat
  updated_at : Nat
  last_accessed : Nat
deriving DecidableEq, Repr

/-- The JSON wire form of a stored working-memory document, mirroring the
dict built by `set_working_memory` and read back with `.get(...)` defaults in
`get_working_memory`.  Every field is optional because `get_working_memory`
defaults each missing key.  The three top-level timestamps are epoch
seconds (`int(....timestamp())`); message/memory lists are serialized with
`model_dump(mode="json")`, which round-trips losslessly. -/
structure WireDoc where
  messages : Option (List MemoryMessage)
  memories : Option (List MemoryRecord)
  context : Option String
  user_id : Option String
  tokens : Option Int
  session_id : Option String
  «namespace» : Option String
  ttl_seconds : Option Int
  data : Option (List (String × String))
  long_term_memory_strategy : Option MemoryStrategyConfig
  last_accessed : Option Nat
  created_at : Option Nat
  updated_at : Option Nat
deriving DecidableEq, Repr

/-- The raw value stored under a working-memory key: a payload that parses
into the typed wire form, a payload on which `json.loads` or model validation
raises, or an empty byte string (falsy in Python, treated as a miss). -/
inductive StoredData where
  | parseable (w : WireDoc)
  | garbage
  | empty
deriving DecidableEq, Repr

/-- Outcome of the Redis `GET` on the working-memory key: either a value (or
absence), or a raised store error. -/
inductive ReadResult where
  | ok (d : Option StoredData)
  | storeError
deriving DecidableEq, Repr

/-- Outcome of the `search_long_term_memories` call made during
reconstruction: the returned records, or a raised error. -/
inductive SearchOutcome where
  | ok (records : List MemoryRecord)
  | searchError
deriving DecidableEq, Repr

/-- The single error `set_working_memory` raises itself (the `ValueError`
for a memory record without an id; `ValidationError` in the design's
taxonomy). -/
inductive SetError where
  | validationError
deriving DecidableEq, Repr

/-- Modelled from the spec: `Keys.working_memory_key` (utils module, not in
src/) is a deterministic, collision-free composition of the three scoping
fields; we model the key as the scoping triple itself, which is exactly
injective in each field. -/
def WMKey : Type := String × Option String × Option String
deriving DecidableEq

/-- Modelled from the spec: key derivation for a session's working memory. -/
def working_memory_key (session_id : String) (user_id : Option String)
    («namespace» : Option String) : WMKey :=
  (session_id, user_id, «namespace»)

/-- The key-value store state: each working-memory key maps to an optional
entry (stored payload together with the TTL it was set with, `none` for a
plain `SET`). -/
structure Store where
  kv : WMKey → Option (StoredData × Option Int)

/-- The per-namespace session index (`Keys.sessions_key`, modelled from the
spec: one ordered set of session ids per namespace). -/
def SessionIndex : Type := Option String → List String

/-- Redis `ZRANGE key start stop` over an ordered set given as a list:
inclusive zero-based indices, negative indices count from the end
(`-1` is the last element), out-of-range indices are clamped, and an
effective start beyond the effective stop yields the empty list. -/
def zrange (xs : List String) (start stop : Int) : List String :=
  let n : Int := xs.length
  let s : Int := if start < 0 then max (n + start) 0 else start
  let e : Int := min (if stop < 0 then n + stop else stop) (n - 1)
  if s > e then [] else (xs.drop s.toNat).take (e - s + 1).toNat

/-- Translation of `list_sessions`: computes `start = offset`,
`end = offset + limit - 1`, then issues `ZCARD` and `ZRANGE` on the
namespace's session index in one pipeline.  The `user_id` argument is
accepted but never used, as in the source. -/
def list_sessions (index : SessionIndex) (limit : Int) (offset : Int)
    («namespace» : Option String) (user_id : Option String) :
    Int × List String :=
  let start := offset
  let «end» := offset + limit - 1
  let xs := index «namespace»
  ((xs.length : Int), zrange xs start «end»)

/-- Ordering of messages by `created_at`, the sort key used on the store-hit
path (`messages.sort(key=lambda m: m.created_at)`). -/
def msgLe (a b : MemoryMessage) : Prop := a.created_at ≤ b.created_at

instance : DecidableRel msgLe := fun a b =>
  inferInstanceAs (Decidable (a.created_at ≤ b.created_at))

instance : IsTotal MemoryMessage msgLe := ⟨fun a b => Nat.le_total _ _⟩

instance : IsTrans MemoryMessage msgLe := ⟨fun _ _ _ h h' => Nat.le_trans h h'⟩

/-- Ordering of messages by `created_at` descending, the sort used on the
reconstruction path (`messages.sort(key=..., reverse=True)`: a stable sort
placing larger keys first). -/
def msgGe (a b : MemoryMessage) : Prop := b.created_at ≤ a.created_at

instance : DecidableRel msgGe := fun a b =>
  inferInstanceAs (Decidable (b.created_at ≤ a.created_at))

instance : IsTotal MemoryMessage msgGe := ⟨fun a b => Nat.le_total _ _⟩

instance : IsTrans MemoryMessage msgGe := ⟨fun _ _ _ h h' => Nat.le_trans h' h⟩

/-- Python truthiness of a dict: `d or {}` yields `{}` when `d` is empty or
missing, else `d` itself (used for the `data` field on both paths). -/
def pyDictOrEmpty (d : Option (List (String × String))) :
    List (String × String) :=
  match d with
  | none => []
  | some l => if l.isEmpty then [] else l

/-- The in-memory slice `messages[-recent_messages_limit:]` applied after the
in-place ascending sort, exactly when `recent_messages_limit is not None and
recent_messages_limit > 0` (from `get_working_memory`). -/
def applyRecentMessagesLimit (recent_messages_limit : Option Int)
    (messages : List MemoryMessage) : List MemoryMessage :=
  match recent_messages_limit with
  | some n =>
      if 0 < n then
        let sorted := List.insertionSort msgLe messages
        sorted.drop (sorted.length - n.toNat)
      else messages
  | none => messages

/-- Serialization of a working-memory document to its wire dict, from
`set_working_memory`: top-level timestamps become epoch seconds, `data`
passes through `working_memory.data or {}`, everything else is carried
over (message/memory dumps round-trip losslessly). -/
def serializeWorkingMemory (wm : WorkingMemory) : WireDoc :=
  { messages := some wm.messages
    memories := some wm.memories
    context := wm.context
    user_id := wm.user_id
    tokens := some wm.tokens
    session_id := some wm.session_id
    «namespace» := wm.«namespace»
    ttl_seconds := wm.ttl_seconds
    data := some (pyDictOrEmpty (some wm.data))
    long_term_memory_strategy := some wm.long_term_memory_strategy
    last_accessed := some (wm.last_accessed / 1000000)
    created_at := some (wm.created_at / 1000000)
    updated_at := some (wm.updated_at / 1000000) }

/-- The document built by `get_working_memory` from a parsed wire payload:
missing fields take their documented defaults (`tokens = 0`, `data = {}`,
default strategy, timestamps defaulting to `int(time.time())`), the recent
messages limit is applied in memory, `session_id` and `namespace` come from
the call's arguments, and `user_id` from the payload.  `now` is the current
time in microseconds. -/
def deserializeWorkingMemory (w : WireDoc) (session_id : String)
    («namespace» : Option String) (recent_messages_limit : Option Int)
    (now : Nat) : WorkingMemory :=
  { messages := applyRecentMessagesLimit recent_messages_limit (w.messages.getD [])
    memories := w.memories.getD []
    context := w.context
    user_id := w.user_id
    tokens := w.tokens.getD 0
    session_id := session_id
    «namespace» := «namespace»
    ttl_seconds := w.ttl_seconds
    data := pyDictOrEmpty w.data
    long_term_memory_strategy := w.long_term_memory_strategy.getD {}
    last_accessed := 1000000 * (w.last_accessed.getD (now / 1000000))
    created_at := 1000000 * (w.created_at.getD (now / 1000000))
    updated_at := 1000000 * (w.updated_at.getD (now / 1000000)) }

/-- Splitting a character list at the first occurrence of the separator
`": "`, as in Python's `text.split(": ", 1)` guarded by `": " in text`:
returns the part before the first `": "` and the remainder, or `none` when
the separator does not occur. -/
def splitOnFirstSep : List Char → Option (List Char × List Char)
  | [] => none
  | [_] => none
  | c1 :: c2 :: rest =>
      if c1 = ':' ∧ c2 = ' ' then some ([], rest)
      else
        match splitOnFirstSep (c2 :: rest) with
        | some (a, b) => some (c1 :: a, b)
        | none => none

/-- The per-record body of the reconstruction loop: parse the record's text
as `"<role>: <content>"` on the first `": "`, lower-casing the role and
carrying `created_at` / `persisted_at` over verbatim; a record without the
separator yields `none` (it is skipped with a warning). -/
def parseRecord (memory : MemoryRecord) : Option MemoryMessage :=
  match splitOnFirstSep memory.text.data with
  | some (role, content) =>
      some { id := memory.id
             role := String.mk (role.map Char.toLower)
             content := String.mk content
             created_at := memory.created_at
             persisted_at := memory.persisted_at }
  | none => none

/-- The messages surviving the parse loop over the long-term search results:
each record either contributes one message or is skipped, without aborting
the loop. -/
def reconSurvivors (records : List MemoryRecord) : List MemoryMessage :=
  records.filterMap parseRecord

/-- Python list slice `xs[:n]`: a prefix of length `n` for `n ≥ 0`, and all
but the last `|n|` elements for `n < 0`. -/
def pyTakeSlice (xs : List α) (n : Int) : List α :=
  if 0 ≤ n then xs.take n.toNat else xs.take (xs.length - (-n).toNat)

/-- The truncation step of reconstruction: `if recent_messages_limit and
len(messages) > recent_messages_limit: messages = messages[:recent_messages_limit]`
(`recent_messages_limit` is truthy iff it is present and nonzero). -/
def truncateMessages (recent_messages_limit : Option Int)
    (messages : List MemoryMessage) : List MemoryMessage :=
  match recent_messages_limit with
  | some n =>
      if n ≠ 0 ∧ n < (messages.length : Int) then pyTakeSlice messages n
      else messages
  | none => messages

/-- Translation of `_reconstruct_working_memory_from_long_term`: the search
outcome is an explicit input (the query itself — session/user/namespace
filters, `memory_type = "message"`, empty text, limit — is issued against the
external engine).  Any raised error yields `none`; zero returned records or
zero surviving messages yield `none`; otherwise the survivors are sorted by
`created_at` descending, truncated, reversed to ascending, and wrapped in a
fresh document. -/
def reconstruct_working_memory_from_long_term (session_id : String)
    (user_id : Option String) («namespace» : Option String)
    (recent_messages_limit : Option Int) (search : SearchOutcome)
    (now : Nat) : Option WorkingMemory :=
  match search with
  | .searchError => none
  | .ok records =>
      if records.isEmpty then none
      else
        let messages := reconSurvivors records
        if messages.isEmpty then none
        else
          let sortedDesc := List.insertionSort msgGe messages
          let final := (truncateMessages recent_messages_limit sortedDesc).reverse
          some { session_id := session_id
                 «namespace» := «namespace»
                 user_id := user_id
                 messages := final
                 memories := []
                 context := some ""
                 data := []
                 tokens := 0
                 ttl_seconds := none
                 long_term_memory_strategy := {}
                 created_at :=
                   match final.head? with
                   | some m => m.persisted_at.getD now
                   | none => now
                 updated_at := now
                 last_accessed := now }

/-- Translation of `get_working_memory`: read the key; on a raised store
error or a payload that fails parsing, the exception is caught and the call
returns `none`; on a miss (absent key or falsy empty payload) reconstruction
runs when `index_all_messages_in_long_term_memory` is enabled; on a hit the
payload is deserialized with the call's `session_id`/`namespace` and the
recent-messages limit applied. -/
def get_working_memory (session_id : String) (user_id : Option String)
    («namespace» : Option String) (recent_messages_limit : Option Int)
    (read : ReadResult) (index_all_messages_in_long_term_memory : Bool)
    (search : SearchOutcome) (now : Nat) : Option WorkingMemory :=
  match read with
  | .storeError => none
  | .ok none =>
      if index_all_messages_in_long_term_memory then
        reconstruct_working_memory_from_long_term session_id user_id
          «namespace» recent_messages_limit search now
      else none
  | .ok (some .empty) =>
      if index_all_messages_in_long_term_memory then
        reconstruct_working_memory_from_long_term session_id user_id
          «namespace» recent_messages_limit search now
      else none
  | .ok (some .garbage) => none
  | .ok (some (.parseable w)) =>
      some (deserializeWorkingMemory w session_id «namespace»
        recent_messages_limit now)

/-- Translation of `set_working_memory`: validate that every memory record
has a non-empty id (raising before the key is even derived), stamp
`updated_at = now`, serialize, and write under the derived key (with
`SETEX` when `ttl_seconds` is present, plain `SET` otherwise).  The store
state is returned alongside the outcome. -/
def set_working_memory (working_memory : WorkingMemory) (store : Store)
    (now : Nat) : Except SetError Unit × Store :=
  if working_memory.memories.any (fun memory => memory.id = "") then
    (.error .validationError, store)
  else
    let wm := { working_memory with updated_at := now }
    let key := working_memory_key wm.session_id wm.user_id wm.«namespace»
    (.ok (),
      ⟨fun k =>
        if k = key then some (.parseable (serializeWorkingMemory wm), wm.ttl_seconds)
        else store.kv k⟩)

/-- Reading the working-memory key from a store state (a successful `GET`
returning the stored payload, if any; TTLs are not elapsed here). -/
def readStore (store : Store) (key : WMKey) : ReadResult :=
  .ok ((store.kv key).map Prod.fst)

/-- A `get_working_memory` call served from a concrete store state. -/
def get_working_memory_from_store (store : Store) (session_id : String)
    (user_id : Option String) («namespace» : Option String)
    (recent_messages_limit : Option Int)
    (index_all_messages_in_long_term_memory : Bool)
    (search : SearchOutcome) (now : Nat) : Option WorkingMemory :=
  get_working_memory session_id user_id «namespace» recent_messages_limit
    (readStore store (working_memory_key session_id user_id «namespace»))
    index_all_messages_in_long_term_memory search now

/-! Concrete inputs used by witnesses and counterexamples. -/

/-- A long-term record whose text parses as `"<role>: <content>"`. -/
def rGood : MemoryRecord :=
  { id := "m1", text := "User: hi", created_at := 100, persisted_at := some 50 }

/-- A long-term record whose text has no `": "` separator. -/
def rBad : MemoryRecord :=
  { id := "m2", text := "nosep", created_at := 100, persisted_at := none }

/-- A five-session index for the listing examples. -/
def idx5 : SessionIndex := fun _ => ["a", "b", "c", "d", "e"]

/-- An empty store. -/
def store0 : Store := ⟨fun _ => none⟩

/-- A message created at 200μs. -/
def msgA : MemoryMessage :=
  { id := "a", role := "user", content := "x", created_at := 200,
    persisted_at := none }

/-- A message created at 100μs. -/
def msgB : MemoryMessage :=
  { id := "b", role := "assistant", content := "y", created_at := 100,
    persisted_at := some 40 }

/-- A valid working-memory document without TTL whose sub-second `created_at`
(1.5 s) exhibits the wire truncation. -/
def wmFrac : WorkingMemory :=
  { session_id := "s", user_id := none, «namespace» := none,
    messages := [], memories := [], context := some "", data := [],
    tokens := 0, ttl_seconds := none, long_term_memory_strategy := {},
    created_at := 1500000, updated_at := 0, last_accessed := 2000000 }

/-- A valid working-memory document without TTL whose top-level timestamps
are whole seconds. -/
def wmWhole : WorkingMemory :=
  { session_id := "s", user_id := some "u", «namespace» := some "ns",
    messages := [msgA, msgB], memories := [⟨"mr1", "t", 0, none⟩],
    context := some "ctx", data := [("k", "v")], tokens := 3,
    ttl_seconds := none, long_term_memory_strategy := {},
    created_at := 5000000, updated_at := 1000000, last_accessed := 7000000 }

/-- A document containing a memory record with an empty id. -/
def wmBadId : WorkingMemory :=
  { session_id := "s", user_id := none, «namespace» := none,
    messages := [], memories := [⟨"", "t", 0, none⟩], context := some "",
    data := [], tokens := 0, ttl_seconds := none,
    long_term_memory_strategy := {}, created_at := 0, updated_at := 0,
    last_accessed := 0 }

/-- A stored wire payload holding two messages (out of chronological order). -/
def wireTwoMsgs : WireDoc :=
  { messages := some [msgA, msgB], memories := some [], context := some "",
    user_id := some "u", tokens := some 0, session_id := some "zzz",
    «namespace» := some "zzz", ttl_seconds := none, data := some [],
    long_term_memory_strategy := some {}, last_accessed := some 1,
    created_at := some 1, updated_at := some 1 }

/-- The message obtained by parsing `rGood`. -/
def msgW : MemoryMessage :=
  { id := "m1", role := "user", content := "hi", created_at := 100,
    persisted_at := some 50 }

/-- The document reconstructed from `[rGood]` at time 999. -/
def docw : WorkingMemory :=
  { session_id := "s", user_id := none, «namespace» := none,
    messages := [msgW], memories := [], context := some "", data := [],
    tokens := 0, ttl_seconds := none, long_term_memory_strategy := {},
    created_at := 50, updated_at := 999, last_accessed := 999 }

/-- The property asserted of a returned message list under a recent-messages
limit `n`: at most `n` messages — exactly `min n (number of candidates)`, so
no candidate is discarded while room remains — ascending by `created_at`,
drawn from the candidate list, with every dropped candidate chronologically
no later than every kept message.  Together these say the kept messages are
the `n` chronologically latest candidates, in ascending order. -/
def keptLatestAscending (n : Int) (candidates kept : List MemoryMessage) : Prop :=
  kept.length ≤ n.toNat
  ∧ kept.length = min n.toNat candidates.length
  ∧ kept.Pairwise (fun a b => a.created_at ≤ b.created_at)
  ∧ List.Subperm kept candidates
  ∧ ∀ d ∈ candidates, d ∉ kept → ∀ k ∈ kept, d.created_at ≤ k.created_at

/-! Helper lemmas about splitting on the first `": "` occurrence. -/

/-- If the split succeeds, the input is literally `before ++ ": " ++ after`. -/
theorem splitOnFirstSep_eq_append :
    ∀ {l a b : List Char}, splitOnFirstSep l = some (a, b) →
      l = a ++ ':' :: ' ' :: b
  | [], a, b, h => by simp [splitOnFirstSep] at h
  | [c], a, b, h => by simp [splitOnFirstSep] at h
  | c1 :: c2 :: rest, a, b, h => by
      by_cases hc : c1 = ':' ∧ c2 = ' '
      · rw [splitOnFirstSep, if_pos hc] at h
        obtain ⟨rfl, rfl⟩ := Prod.mk.injEq .. ▸ Option.some.injEq .. ▸ h
        simp [hc.1, hc.2]
      · rw [splitOnFirstSep, if_neg hc] at h
        cases hrec : splitOnFirstSep (c2 :: rest) with
        | none => rw [hrec] at h; exact absurd h (by simp)
        | some p =>
            obtain ⟨a', b'⟩ := p
            rw [hrec] at h
            obtain ⟨rfl, rfl⟩ := Prod.mk.injEq .. ▸ Option.some.injEq .. ▸ h
            have ih := splitOnFirstSep_eq_append hrec
            simpa using congrArg (c1 :: ·) ih

/-- A list of the shape `a ++ ": " ++ b` always splits. -/
theorem splitOnFirstSep_append_sep_isSome (a b : List Char) :
    (splitOnFirstSep (a ++ ':' :: ' ' :: b)).isSome = true := by
  induction a with
  | nil => simp [splitOnFirstSep]
  | cons c a' ih =>
      cases a' with
      | nil =>
          show (splitOnFirstSep (c :: ':' :: ' ' :: b)).isSome = true
          rw [splitOnFirstSep, if_neg (by simp)]
          simp [splitOnFirstSep]
      | cons c2 a'' =>
          show (splitOnFirstSep (c :: c2 :: (a'' ++ ':' :: ' ' :: b))).isSome = true
          by_cases hc : c = ':' ∧ c2 = ' '
          · rw [splitOnFirstSep, if_pos hc]; rfl
          · rw [splitOnFirstSep, if_neg hc]
            simp only [List.cons_append] at ih
            cases hrec : splitOnFirstSep (c2 :: (a'' ++ ':' :: ' ' :: b)) with
            | none => rw [hrec] at ih; simp at ih
            | some p => obtain ⟨a', b'⟩ := p; rfl

/-- If the split fails, the separator occurs nowhere in the input. -/
theorem noSep_of_splitOnFirstSep_none {l : List Char}
    (h : splitOnFirstSep l = none) :
    ∀ a b : List Char, l ≠ a ++ ':' :: ' ' :: b := by
  intro a b heq
  have hs := splitOnFirstSep_append_sep_isSome a b
  rw [← heq, h] at hs
  simp at hs

/-- If `before` is separator-free, the split of `before ++ ": " ++ after`
returns exactly that decomposition (i.e. the split is at the first
occurrence). -/
theorem splitOnFirstSep_first (a b : List Char)
    (hfirst : ∀ a₁ a₂ : List Char, a ≠ a₁ ++ ':' :: ' ' :: a₂) :
    splitOnFirstSep (a ++ ':' :: ' ' :: b) = some (a, b) := by
  induction a with
  | nil => simp [splitOnFirstSep]
  | cons c a' ih =>
      cases a' with
      | nil =>
          show splitOnFirstSep (c :: ':' :: ' ' :: b) = some ([c], b)
          rw [splitOnFirstSep, if_neg (by simp)]
          simp [splitOnFirstSep]
      | cons c2 a'' =>
          show splitOnFirstSep (c :: c2 :: (a'' ++ ':' :: ' ' :: b)) =
            some (c :: c2 :: a'', b)
          have hc : ¬(c = ':' ∧ c2 = ' ') := by
            rintro ⟨rfl, rfl⟩
            exact hfirst [] a'' rfl
          rw [splitOnFirstSep, if_neg hc]
          have hfirst' : ∀ a₁ a₂ : List Char, c2 :: a'' ≠ a₁ ++ ':' :: ' ' :: a₂ := by
            intro a₁ a₂ h
            exact hfirst (c :: a₁) a₂ (by simp [h])
          have ih' := ih hfirst'
          simp only [List.cons_append] at ih'
          rw [ih']

/-- C5: during reconstruction, a long-term record whose text contains the
`": "` separator becomes a message whose role is the text before the first
`": "` occurrence lower-cased and whose content is the remainder, with
`created_at` and `persisted_at` carried over verbatim from the record; a
record whose text contains no separator is skipped without aborting the
processing of the other records. -/
theorem c5_reconstruction_record_parsing (r : MemoryRecord) :
    (∀ a b : List Char, r.text.data = a ++ ':' :: ' ' :: b →
        (∀ a₁ a₂ : List Char, a ≠ a₁ ++ ':' :: ' ' :: a₂) →
        parseRecord r = some { id := r.id,
                               role := String.mk (a.map Char.toLower),
                               content := String.mk b,
                               created_at := r.created_at,
                               persisted_at := r.persisted_at })
    ∧ ((∀ a b : List Char, r.text.data ≠ a ++ ':' :: ' ' :: b) →
        parseRecord r = none)
    ∧ (∀ rest, parseRecord r = none →
        reconSurvivors (r :: rest) = reconSurvivors rest) := by
  refine ⟨?_, ?_, ?_⟩
  · intro a b heq hfirst
    unfold parseRecord
    rw [heq, splitOnFirstSep_first a b hfirst]
  · intro hno
    unfold parseRecord
    cases hrec : splitOnFirstSep r.text.data with
    | none => rfl
    | some p =>
        obtain ⟨a, b⟩ := p
        exact absurd (splitOnFirstSep_eq_append hrec) (hno a b)
  · intro rest h
    simp [reconSurvivors, List.filterMap_cons, h]

/-- Witness for C5: the record `"User: hi"` parses into role `"user"` and
content `"hi"` with timestamps carried over, and a separator-free record is
skipped without dropping its successors. -/
theorem c5_witness :
    parseRecord rGood =
      some { id := "m1", role := "user", content := "hi", created_at := 100,
             persisted_at := some 50 }
    ∧ reconSurvivors [rBad, rGood] = reconSurvivors [rGood] := by
  constructor
  · have h := (c5_reconstruction_record_parsing rGood).1 "User".data "hi".data
      (by decide)
      (fun a₁ a₂ hcontra =>
        noSep_of_splitOnFirstSep_none (l := "User".data) (by decide) a₁ a₂ hcontra)
    exact h.trans (by decide)
  · exact (c5_reconstruction_record_parsing rBad).2.2 [rGood] (by decide)

/-- C6: a reconstruction attempt in which zero messages survive parsing
(including when the search returns no records at all) yields an absent
result, never an empty document. -/
theorem c6_empty_reconstruction_absent (session_id : String)
    (user_id «namespace» : Option String) (recent_messages_limit : Option Int)
    (now : Nat) (records : List MemoryRecord)
    (h : records.filterMap parseRecord = []) :
    reconstruct_working_memory_from_long_term session_id user_id «namespace»
      recent_messages_limit (.ok records) now = none := by
  simp [reconstruct_working_memory_from_long_term, reconSurvivors, h]

/-- Witness for C6 at a single unparseable record. -/
theorem c6_witness :
    reconstruct_working_memory_from_long_term "s" none none none
      (.ok [rBad]) 0 = none :=
  c6_empty_reconstruction_absent "s" none none none 0 [rBad] (by decide)

/-- C2: setting a document containing a memory record with an empty id fails
with the validation error before any store write, leaving the store state
(and in particular the session's key) unchanged. -/
theorem c2_set_validation_no_write (working_memory : WorkingMemory)
    (store : Store) (now : Nat)
    (h : ∃ m ∈ working_memory.memories, m.id = "") :
    (set_working_memory working_memory store now).1 = .error .validationError
    ∧ (set_working_memory working_memory store now).2 = store := by
  have hany : working_memory.memories.any (fun memory => memory.id = "") = true := by
    simp only [List.any_eq_true, decide_eq_true_eq]
    exact h
  unfold set_working_memory
  rw [if_pos hany]
  exact ⟨rfl, rfl⟩

/-- Witness for C2 at a concrete document with an empty memory id against the
empty store. -/
theorem c2_witness :
    (set_working_memory wmBadId store0 0).1 = .error .validationError
    ∧ (set_working_memory wmBadId store0 0).2 = store0 :=
  c2_set_validation_no_write wmBadId store0 0 (by decide)

/-- C3: the read path is lenient — a raised store error, an unparseable
payload, and a failing reconstruction search are each converted to an absent
result (`none`), never surfaced to the caller. -/
theorem c3_get_lenient (session_id : String) (user_id «namespace» : Option String)
    (recent_messages_limit : Option Int) (enabled : Bool) (search : SearchOutcome)
    (now : Nat) :
    get_working_memory session_id user_id «namespace» recent_messages_limit
        .storeError enabled search now = none
    ∧ get_working_memory session_id user_id «namespace» recent_messages_limit
        (.ok (some .garbage)) enabled search now = none
    ∧ get_working_memory session_id user_id «namespace» recent_messages_limit
        (.ok none) enabled .searchError now = none
    ∧ get_working_memory session_id user_id «namespace» recent_messages_limit
        (.ok (some .empty)) enabled .searchError now = none
    ∧ reconstruct_working_memory_from_long_term session_id user_id «namespace»
        recent_messages_limit .searchError now = none := by
  refine ⟨rfl, rfl, ?_, ?_, rfl⟩ <;> cases enabled <;> rfl

/-- C9: `list_sessions` ignores its `user_id` argument — two calls differing
only in `user_id` return identical results. -/
theorem c9_list_sessions_ignores_user_id (index : SessionIndex)
    (limit offset : Int) («namespace» : Option String)
    (u1 u2 : Option String) :
    list_sessions index limit offset «namespace» u1 =
      list_sessions index limit offset «namespace» u2 := rfl

/-- C10: on a store hit the returned document's `session_id` and `namespace`
are the call's arguments regardless of the stored payload's values for those
fields, while `user_id` is taken from the payload. -/
theorem c10_get_scoping_fields (w : WireDoc) (session_id : String)
    (user_id «namespace» : Option String) (recent_messages_limit : Option Int)
    (enabled : Bool) (search : SearchOutcome) (now : Nat) :
    (get_working_memory session_id user_id «namespace» recent_messages_limit
        (.ok (some (.parseable w))) enabled search now).map
        (fun d => (d.session_id, d.«namespace», d.user_id)) =
      some (session_id, «namespace», w.user_id) := rfl

/-- Python `d or {}` on a present dict is the dict itself. -/
theorem pyDictOrEmpty_some (d : List (String × String)) :
    pyDictOrEmpty (some d) = d := by
  cases d <;> rfl

/-- C1 (amended): for a valid document without TTL whose top-level
`created_at` and `last_accessed` are whole-second timestamps, a set followed
by a get with the same session/user/namespace returns the document with only
`updated_at` changed, set to the set time truncated to whole seconds (wire
timestamps are epoch seconds). -/
theorem c1_set_then_get_roundtrip (wm : WorkingMemory) (store : Store)
    (t₁ t₂ : Nat) (enabled : Bool) (search : SearchOutcome)
    (httl : wm.ttl_seconds = none)
    (hids : ∀ m ∈ wm.memories, m.id ≠ "")
    (hca : wm.created_at % 1000000 = 0)
    (hla : wm.last_accessed % 1000000 = 0) :
    get_working_memory_from_store (set_working_memory wm store t₁).2
        wm.session_id wm.user_id wm.«namespace» none enabled search t₂ =
      some { wm with updated_at := 1000000 * (t₁ / 1000000) } := by
  have hany : (wm.memories.any fun memory => memory.id = "") = false := by
    simp only [List.any_eq_false, decide_eq_true_eq]
    exact fun m hm => hids m hm
  have hca' : 1000000 * (wm.created_at / 1000000) = wm.created_at :=
    Nat.mul_div_cancel' (Nat.dvd_of_mod_eq_zero hca)
  have hla' : 1000000 * (wm.last_accessed / 1000000) = wm.last_accessed :=
    Nat.mul_div_cancel' (Nat.dvd_of_mod_eq_zero hla)
  simp [get_working_memory_from_store, readStore, set_working_memory, hany,
    get_working_memory, deserializeWorkingMemory, serializeWorkingMemory,
    applyRecentMessagesLimit, pyDictOrEmpty_some, hca', hla']

/-- Witness for the amended C1 at a concrete whole-second document set at
time 42.123456 s. -/
theorem c1_roundtrip_witness :
    get_working_memory_from_store (set_working_memory wmWhole store0 42123456).2
        "s" (some "u") (some "ns") none false (.ok []) 0 =
      some { wmWhole with updated_at := 42000000 } := by
  have h := c1_set_then_get_roundtrip wmWhole store0 42123456 0 false (.ok [])
    (by decide) (by decide) (by decide) (by decide)
  exact h.trans (by decide)

/-- Counterexample to C1 as stated: `wmFrac` is a valid document without TTL
(all memory ids non-empty) whose `created_at` is 1.5 s; after a set at time
7 s, the get returns a document whose `created_at` is 1.0 s — a field other
than `updated_at` differs from the input, because the wire format truncates
top-level timestamps to whole epoch seconds. -/
theorem c1_counterexample :
    (get_working_memory_from_store (set_working_memory wmFrac store0 7000000).2
        "s" none none none false (.ok []) 0).map (fun d => d.created_at) =
      some 1000000
    ∧ wmFrac.created_at = 1500000 ∧ wmFrac.ttl_seconds = none
    ∧ ∀ m ∈ wmFrac.memories, m.id ≠ "" := by decide

/-- For a window with `limit ≥ 1` and `offset ≥ 0`, ZRANGE over
`[offset, offset + limit - 1]` is the slice `drop offset |>.take limit`. -/
theorem zrange_window (xs : List String) (limit offset : Int)
    (hl : 1 ≤ limit) (ho : 0 ≤ offset) :
    zrange xs offset (offset + limit - 1) =
      (xs.drop offset.toNat).take limit.toNat := by
  simp only [zrange]
  rw [if_neg (by omega : ¬ offset < 0)]
  rw [if_neg (by omega : ¬ offset + limit - 1 < 0)]
  by_cases hb : (xs.length : Int) ≤ offset
  · rw [if_pos (by omega)]
    rw [List.drop_eq_nil_of_le (by omega), List.take_nil]
  · rw [if_neg (by omega)]
    rw [List.take_eq_take]
    rw [List.length_drop]
    omega

/-- C8 (amended): for every `limit ≥ 1` and `offset ≥ 0`, `list_sessions`
returns the index's total cardinality together with at most `limit`
identifiers, namely those at positions `offset` through `offset + limit - 1`
of the ordered set (the claim as stated fails at `limit = 0`, `offset = 0`,
where ZRANGE's end index becomes `-1`, i.e. the last element). -/
theorem c8_list_sessions_pagination (index : SessionIndex)
    (limit offset : Int) («namespace» user_id : Option String)
    (hl : 1 ≤ limit) (ho : 0 ≤ offset) :
    list_sessions index limit offset «namespace» user_id =
      (((index «namespace»).length : Int),
        ((index «namespace»).drop offset.toNat).take limit.toNat)
    ∧ (list_sessions index limit offset «namespace» user_id).2.length ≤
        limit.toNat := by
  have hz := zrange_window (index «namespace») limit offset hl ho
  constructor
  · simp only [list_sessions]
    rw [hz]
  · simp only [list_sessions]
    rw [hz, List.length_take]
    omega

/-- Witness for the amended C8: against a five-session index, `limit = 2,
offset = 0` returns total 5 with exactly two identifiers, and `limit = 2,
offset = 4` returns the remaining one. -/
theorem c8_witness :
    list_sessions idx5 2 0 none none = (5, ["a", "b"])
    ∧ list_sessions idx5 2 4 none none = (5, ["e"]) := by
  constructor
  · exact ((c8_list_sessions_pagination idx5 2 0 none none (by decide)
      (by decide)).1).trans (by decide)
  · exact ((c8_list_sessions_pagination idx5 2 4 none none (by decide)
      (by decide)).1).trans (by decide)

/-- Counterexample to C8 as stated: with `limit = 0 ≥ 0` and `offset = 0`
the computed end index is `-1`, which ZRANGE interprets as the last element,
so the call returns all five identifiers instead of at most `limit = 0`. -/
theorem c8_counterexample :
    list_sessions idx5 0 0 none none = (5, ["a", "b", "c", "d", "e"]) := by
  decide

/-- In a pairwise-related list, every element of `take k` relates to every
element of `drop k`. -/
theorem pairwise_take_le_drop {α : Type} {R : α → α → Prop} {l : List α}
    (h : l.Pairwise R) (k : Nat) {x y : α}
    (hx : x ∈ l.take k) (hy : y ∈ l.drop k) : R x y := by
  rw [← List.take_append_drop k l, List.pairwise_append] at h
  exact h.2.2 x hx y hy

/-- An element of a list that is not in `drop k` is in `take k`. -/
theorem mem_take_of_not_mem_drop {α : Type} {l : List α} {k : Nat} {x : α}
    (hx : x ∈ l) (hnot : x ∉ l.drop k) : x ∈ l.take k := by
  rw [← List.take_append_drop k l, List.mem_append] at hx
  exact hx.resolve_right hnot

/-- With a positive limit `n`, the reconstruction truncation keeps exactly
the `n` first (i.e. most recent, the list being sorted descending)
messages. -/
theorem truncateMessages_pos (n : Int) (hn : 0 < n)
    (l : List MemoryMessage) :
    truncateMessages (some n) l = l.take n.toNat := by
  simp only [truncateMessages]
  by_cases hlen : n < (l.length : Int)
  · rw [if_pos ⟨by omega, hlen⟩]
    simp only [pyTakeSlice]
    rw [if_pos (by omega : (0:Int) ≤ n)]
  · rw [if_neg (fun hc => hlen hc.2)]
    rw [List.take_of_length_le (by omega)]

/-- The truncation step always yields a prefix of its input. -/
theorem truncateMessages_eq_take (recent_messages_limit : Option Int)
    (l : List MemoryMessage) :
    ∃ k, truncateMessages recent_messages_limit l = l.take k := by
  cases recent_messages_limit with
  | none => exact ⟨l.length, (List.take_length l).symm⟩
  | some n =>
      simp only [truncateMessages]
      by_cases hcond : n ≠ 0 ∧ n < (l.length : Int)
      · rw [if_pos hcond]
        simp only [pyTakeSlice]
        by_cases hn : (0:Int) ≤ n
        · rw [if_pos hn]; exact ⟨n.toNat, rfl⟩
        · rw [if_neg hn]; exact ⟨l.length - (-n).toNat, rfl⟩
      · rw [if_neg hcond]; exact ⟨l.length, (List.take_length l).symm⟩

/-- The head of a list sorted ascending by `created_at` is chronologically
no later than any element. -/
theorem head_min_of_pairwise_asc {l : List MemoryMessage} {m : MemoryMessage}
    (hpair : l.Pairwise (fun a b => a.created_at ≤ b.created_at))
    (hm : l.head? = some m) : ∀ m' ∈ l, m.created_at ≤ m'.created_at := by
  cases l with
  | nil => simp at hm
  | cons a t =>
      obtain rfl : a = m := by simpa using hm
      intro m' hm'
      rcases List.mem_cons.mp hm' with rfl | hmem
      · exact Nat.le_refl _
      · exact (List.pairwise_cons.mp hpair).1 m' hmem

/-- The store-hit path's sort-and-slice keeps the latest `n` messages in
ascending order. -/
theorem applyRecentMessagesLimit_keptLatest (n : Int) (hn : 0 < n)
    (messages : List MemoryMessage) :
    keptLatestAscending n messages
      (applyRecentMessagesLimit (some n) messages) := by
  have hred : applyRecentMessagesLimit (some n) messages =
      (List.insertionSort msgLe messages).drop
        ((List.insertionSort msgLe messages).length - n.toNat) := by
    simp only [applyRecentMessagesLimit, if_pos hn]
  rw [hred]
  have hperm := List.perm_insertionSort msgLe messages
  have hpair := List.sorted_insertionSort msgLe messages
  have hlen := hperm.length_eq
  unfold keptLatestAscending
  refine ⟨?_, ?_, ?_, ?_, ?_⟩
  · rw [List.length_drop]
    omega
  · rw [List.length_drop]
    omega
  · exact List.Pairwise.sublist (List.drop_sublist _ _) hpair
  · exact ((List.drop_sublist _ _).subperm).trans hperm.subperm
  · intro d hd hnot k hk
    have hdsorted : d ∈ List.insertionSort msgLe messages := hperm.mem_iff.mpr hd
    have hdtake := mem_take_of_not_mem_drop hdsorted hnot
    exact pairwise_take_le_drop hpair _ hdtake hk

/-- The reconstruction path's sort-descending, truncate-and-reverse keeps
the latest `n` messages in ascending order. -/
theorem reconstructed_keptLatest (n : Int) (hn : 0 < n)
    (messages : List MemoryMessage) :
    keptLatestAscending n messages
      ((truncateMessages (some n)
        (List.insertionSort msgGe messages)).reverse) := by
  rw [truncateMessages_pos n hn]
  have hperm := List.perm_insertionSort msgGe messages
  have hpair := List.sorted_insertionSort msgGe messages
  have hlen := hperm.length_eq
  unfold keptLatestAscending
  refine ⟨?_, ?_, ?_, ?_, ?_⟩
  · rw [List.length_reverse, List.length_take]
    omega
  · rw [List.length_reverse, List.length_take]
    omega
  · rw [List.pairwise_reverse]
    exact List.Pairwise.sublist (List.take_sublist _ _) hpair
  · exact (List.reverse_perm _).subperm.trans
      (((List.take_sublist _ _).subperm).trans hperm.subperm)
  · intro d hd hnot k hk
    rw [List.mem_reverse] at hnot hk
    have hdsorted : d ∈ List.insertionSort msgGe messages := hperm.mem_iff.mpr hd
    have hddrop : d ∈ (List.insertionSort msgGe messages).drop n.toNat := by
      rw [← List.take_append_drop n.toNat (List.insertionSort msgGe messages),
        List.mem_append] at hdsorted
      exact hdsorted.resolve_left hnot
    exact pairwise_take_le_drop hpair n.toNat hk hddrop

/-- C4: with `recentMessagesLimit = N > 0`, on both the store-hit path and
the reconstruction path the returned document holds at most N messages —
exactly `min N (number of candidates)` of them — ordered ascending by
`created_at`, and they are the N chronologically latest among the
candidates (the stored messages, respectively the parsed survivors of the
long-term records): drawn from the candidates, with every dropped candidate
no later than every kept message. -/
theorem c4_recent_messages_limit (session_id : String)
    (user_id «namespace» : Option String) (n : Int) (w : WireDoc)
    (records : List MemoryRecord) (enabled : Bool) (search : SearchOutcome)
    (now now' : Nat) (hn : 0 < n) :
    (∀ doc, get_working_memory session_id user_id «namespace» (some n)
        (.ok (some (.parseable w))) enabled search now = some doc →
        keptLatestAscending n (w.messages.getD []) doc.messages)
    ∧ (∀ doc, get_working_memory session_id user_id «namespace» (some n)
        (.ok none) true (.ok records) now' = some doc →
        keptLatestAscending n (reconSurvivors records) doc.messages) := by
  constructor
  · intro doc hdoc
    simp only [get_working_memory, Option.some.injEq] at hdoc
    subst hdoc
    show keptLatestAscending n (w.messages.getD [])
      (applyRecentMessagesLimit (some n) (w.messages.getD []))
    exact applyRecentMessagesLimit_keptLatest n hn _
  · intro doc hdoc
    simp only [get_working_memory, if_true] at hdoc
    simp only [reconstruct_working_memory_from_long_term] at hdoc
    by_cases h1 : records.isEmpty
    · rw [if_pos h1] at hdoc; exact absurd hdoc (by simp)
    · rw [if_neg h1] at hdoc
      by_cases h2 : (reconSurvivors records).isEmpty
      · rw [if_pos h2] at hdoc; exact absurd hdoc (by simp)
      · rw [if_neg h2] at hdoc
        have hd := Option.some.inj hdoc
        subst hd
        show keptLatestAscending n (reconSurvivors records)
          ((truncateMessages (some n)
            (List.insertionSort msgGe (reconSurvivors records))).reverse)
        exact reconstructed_keptLatest n hn (reconSurvivors records)

/-- Witness for C4 at limit 1: on the hit path over two stored messages and
on the reconstruction path over one record. -/
theorem c4_witness :
    keptLatestAscending 1 (wireTwoMsgs.messages.getD [])
      (deserializeWorkingMemory wireTwoMsgs "s" none (some 1) 0).messages
    ∧ keptLatestAscending 1 (reconSurvivors [rGood]) docw.messages := by
  constructor
  · exact (c4_recent_messages_limit "s" none none 1 wireTwoMsgs [] false
      (.ok []) 0 0 (by decide)).1
      (deserializeWorkingMemory wireTwoMsgs "s" none (some 1) 0) rfl
  · exact (c4_recent_messages_limit "s" none none 1 wireTwoMsgs [rGood] true
      (.ok []) 0 999 (by decide)).2 docw (by decide)

/-- C7: every document produced by reconstruction has `memories = []`,
`context = ""`, `data = {}`, `updated_at = now`, `last_accessed = now`, and
— when at least one message is kept — `created_at` equal to the earliest
kept message's `persisted_at`, falling back to `now` when that is absent. -/
theorem c7_reconstructed_document_fields (session_id : String)
    (user_id «namespace» : Option String) (recent_messages_limit : Option Int)
    (records : List MemoryRecord) (now : Nat) (doc : WorkingMemory)
    (h : reconstruct_working_memory_from_long_term session_id user_id
        «namespace» recent_messages_limit (.ok records) now = some doc) :
    doc.memories = [] ∧ doc.context = some "" ∧ doc.data = []
    ∧ doc.updated_at = now ∧ doc.last_accessed = now
    ∧ ∀ m, doc.messages.head? = some m →
        doc.created_at = m.persisted_at.getD now
        ∧ ∀ m' ∈ doc.messages, m.created_at ≤ m'.created_at := by
  simp only [reconstruct_working_memory_from_long_term] at h
  by_cases h1 : records.isEmpty
  · rw [if_pos h1] at h; exact absurd h (by simp)
  · rw [if_neg h1] at h
    by_cases h2 : (reconSurvivors records).isEmpty
    · rw [if_pos h2] at h; exact absurd h (by simp)
    · rw [if_neg h2] at h
      have hd := Option.some.inj h
      subst hd
      obtain ⟨k, hk⟩ := truncateMessages_eq_take recent_messages_limit
        (List.insertionSort msgGe (reconSurvivors records))
      have hpairfinal : ((truncateMessages recent_messages_limit
          (List.insertionSort msgGe (reconSurvivors records))).reverse).Pairwise
          (fun a b => a.created_at ≤ b.created_at) := by
        rw [hk, List.pairwise_reverse]
        exact List.Pairwise.sublist (List.take_sublist _ _)
          (List.sorted_insertionSort msgGe _)
      refine ⟨rfl, rfl, rfl, rfl, rfl, ?_⟩
      intro m hm
      have hm' : ((truncateMessages recent_messages_limit
          (List.insertionSort msgGe (reconSurvivors records))).reverse).head? =
          some m := hm
      constructor
      · show (match (truncateMessages recent_messages_limit
            (List.insertionSort msgGe (reconSurvivors records))).reverse.head? with
          | some mm => mm.persisted_at.getD now
          | none => now) = m.persisted_at.getD now
        rw [hm']
      · exact head_min_of_pairwise_asc hpairfinal hm'

/-- Witness for C7 at a single parsed record with `persisted_at = 50` and
reconstruction time 999. -/
theorem c7_witness :
    docw.memories = [] ∧ docw.context = some "" ∧ docw.data = []
    ∧ docw.updated_at = 999 ∧ docw.last_accessed = 999
    ∧ docw.created_at = 50 := by
  have h := c7_reconstructed_document_fields "s" none none none [rGood] 999
    docw (by decide)
  refine ⟨h.1, h.2.1, h.2.2.1, h.2.2.2.1, h.2.2.2.2.1, ?_⟩
  have h6 := (h.2.2.2.2.2 msgW (by decide)).1
  exact h6.trans (by decide)
